import Mathlib

set_option autoImplicit false
set_option linter.unusedVariables false

/-!
Verification of the `commlink` pub/sub layer (`src/commlink/serializer.py`,
`src/commlink/publisher.py`, `src/commlink/subscriber.py`).

Modelling conventions:
* Python `bytes` values are modelled as `List Nat` (one `Nat` per byte); Python
  strings are modelled by their UTF-8 byte sequences, so the topic argument of
  `serialize`, the topic returned by `deserialize` and the subscriber's topic
  keys are all `Bytes`.  UTF-8 encoding is a bijection onto valid byte strings
  and encodes the space character as the single byte `0x20 = 32`, so "topic
  contains no space" becomes `32 ∉ topic`.
* `pickle` is the opaque encode/decode capability: a `Pickle V` record bundles
  `dumps` (plain `pickle.dumps(data)`), `dumps5` (protocol-5 `pickle.dumps`
  with `buffer_callback`, returning the main stream plus the collected
  out-of-band buffers) and `loads` (`pickle.loads(main, buffers=...)`;
  `pickle.loads(b)` with the default `buffers=None` behaves as `loads b []`).
  A failing `pickle.loads` is `none`.
* Exceptions are modelled as explicit error results (`Except`, or dedicated
  outcome constructors); a Python function that may raise returns such a sum.
-/

/-- A single byte of a Python `bytes` object. -/
abbrev Byte := Nat

/-- A Python `bytes` value, as its list of bytes. -/
abbrev Bytes := List Byte

/-- The opaque pickling capability used by `serializer.py` (see module doc). -/
structure Pickle (V : Type) where
  dumps : V → Bytes
  dumps5 : V → Bytes × List Bytes
  loads : Bytes → List Bytes → Option V

/-- Errors `deserialize` can raise: `malformed` is the `ValueError` raised by
unpacking `msg.split(b" ", 1)` when the single frame has no space byte,
`decodeError` is a failing `pickle.loads`, `indexError` is `frames[0]` on an
empty frame list. -/
inductive DesError where
  | malformed
  | decodeError
  | indexError
  deriving DecidableEq, Repr

/-- Python `msg.split(b" ", 1)` when used as `topic, data = msg.split(b" ", 1)`:
`some (t, d)` splits `msg` at its first space byte (32) into the part before
and the part after; `none` when `msg` has no space byte (the unpacking then
raises `ValueError`). -/
def splitFirstSpace : Bytes → Option (Bytes × Bytes)
  | [] => none
  | b :: rest =>
    if b = 32 then some ([], rest)
    else
      match splitFirstSpace rest with
      | none => none
      | some (t, d) => some (b :: t, d)

/-- `serializer.serialize(topic, data, legacy)`: legacy mode returns
`[topic_bytes, pickle.dumps(data)]`; default mode returns
`[topic_bytes, main_stream] + buffers` with protocol-5 out-of-band buffers. -/
def serialize {V : Type} (P : Pickle V) (topic : Bytes) (data : V)
    (legacy : Bool) : List Bytes :=
  if legacy then
    [topic, P.dumps data]
  else
    topic :: (P.dumps5 data).1 :: (P.dumps5 data).2

/-- `serializer.deserialize(frames)`: one frame is split on the first space
byte into topic and payload (single-frame legacy format); two or more frames
are `[topic, main_stream, *buffers]`, handled by one unified
`pickle.loads(main_stream, buffers=frames[2:])` call. -/
def deserialize {V : Type} (P : Pickle V) (frames : List Bytes) :
    Except DesError (Bytes × V) :=
  match frames with
  | [] => .error .indexError
  | [msg] =>
    match splitFirstSpace msg with
    | none => .error .malformed
    | some (t, d) =>
      match P.loads d [] with
      | none => .error .decodeError
      | some v => .ok (t, v)
  | topic :: main :: buffers =>
    match P.loads main buffers with
    | none => .error .decodeError
    | some v => .ok (topic, v)

/-- A concrete pickle capability over byte-string values, used to instantiate
the abstract `Pickle` in witnesses: `dumps`/`dumps5` emit the value itself and
`loads` returns the main stream. -/
def bytesPickle : Pickle Bytes where
  dumps := fun v => v
  dumps5 := fun v => (v, [])
  loads := fun b _ => some b

/- Lemmas about `splitFirstSpace`. -/

theorem splitFirstSpace_eq_none_iff (msg : Bytes) :
    splitFirstSpace msg = none ↔ 32 ∉ msg := by
  induction msg with
  | nil => simp [splitFirstSpace]
  | cons b rest ih =>
    by_cases hb : b = 32
    · subst hb
      simp [splitFirstSpace]
    · simp only [splitFirstSpace, if_neg hb]
      cases hsp : splitFirstSpace rest with
      | none =>
        simp only [List.mem_cons]
        constructor
        · intro _
          rintro (h32 | hmem)
          · exact hb h32.symm
          · exact (ih.mp hsp) hmem
        · intro _; trivial
      | some td =>
        obtain ⟨t, d⟩ := td
        simp only [List.mem_cons]
        constructor
        · intro h; cases h
        · intro hnot
          exfalso
          have : 32 ∉ rest := fun hm => hnot (Or.inr hm)
          rw [ih.mpr this] at hsp
          cases hsp

theorem splitFirstSpace_append (t d : Bytes) (ht : 32 ∉ t) :
    splitFirstSpace (t ++ 32 :: d) = some (t, d) := by
  induction t with
  | nil => simp [splitFirstSpace]
  | cons b rest ih =>
    have hb : b ≠ 32 := fun h => ht (by simp [h])
    have hrest : 32 ∉ rest := fun hm => ht (by simp [hm])
    simp only [List.cons_append, splitFirstSpace, if_neg hb, List.append_eq, ih hrest]

theorem splitFirstSpace_sound (msg t d : Bytes)
    (h : splitFirstSpace msg = some (t, d)) :
    msg = t ++ 32 :: d ∧ 32 ∉ t := by
  induction msg generalizing t d with
  | nil => cases h
  | cons b rest ih =>
    by_cases hb : b = 32
    · subst hb
      simp only [splitFirstSpace, if_pos rfl, Option.some.injEq, Prod.mk.injEq] at h
      obtain ⟨rfl, rfl⟩ := h
      simp
    · simp only [splitFirstSpace, if_neg hb] at h
      cases hsp : splitFirstSpace rest with
      | none => rw [hsp] at h; cases h
      | some td =>
        obtain ⟨t0, d0⟩ := td
        rw [hsp] at h
        simp only [Option.some.injEq, Prod.mk.injEq] at h
        obtain ⟨rfl, rfl⟩ := h
        obtain ⟨hmsg, hnot⟩ := ih t0 d0 hsp
        constructor
        · simp [hmsg]
        · intro hm
          rcases List.mem_cons.mp hm with h32 | hmem
          · exact hb h32.symm
          · exact hnot hmem

/-- C2: for every topic with no space byte and every value, `deserialize`
inverts `serialize` in both legacy and default mode, assuming the opaque
pickle capability round-trips on that value. -/
theorem deserialize_serialize_roundtrip {V : Type} (P : Pickle V)
    (t : Bytes) (v : V) (ht : 32 ∉ t)
    (hlegacy : P.loads (P.dumps v) [] = some v)
    (hdefault : P.loads (P.dumps5 v).1 (P.dumps5 v).2 = some v) :
    deserialize P (serialize P t v true) = .ok (t, v) ∧
    deserialize P (serialize P t v false) = .ok (t, v) := by
  constructor
  · simp [serialize, deserialize, hlegacy]
  · simp only [serialize, if_neg (Bool.false_ne_true)]
    cases hd5 : (P.dumps5 v).2 with
    | nil => simp [deserialize, hd5 ▸ hdefault]
    | cons b bs => simp [deserialize, hd5 ▸ hdefault]

/-- Witness for C2 at a concrete topic, value and pickle capability. -/
theorem deserialize_serialize_roundtrip_witness :
    (32 : Byte) ∉ [97, 98] ∧
    bytesPickle.loads (bytesPickle.dumps [1, 2]) [] = some [1, 2] ∧
    bytesPickle.loads (bytesPickle.dumps5 [1, 2]).1 (bytesPickle.dumps5 [1, 2]).2
      = some [1, 2] ∧
    (deserialize bytesPickle (serialize bytesPickle [97, 98] [1, 2] true)
        = .ok ([97, 98], [1, 2]) ∧
     deserialize bytesPickle (serialize bytesPickle [97, 98] [1, 2] false)
        = .ok ([97, 98], [1, 2])) :=
  ⟨by decide, by rfl, by rfl,
   deserialize_serialize_roundtrip bytesPickle [97, 98] [1, 2]
     (by decide) (by rfl) (by rfl)⟩

/-- C4: for a topic byte string with no space byte, the single-frame legacy
input `[topic ++ b" " ++ payload]` deserializes exactly as the two-frame
input `[topic, payload]`. -/
theorem deserialize_single_frame_agrees {V : Type} (P : Pickle V)
    (t d : Bytes) (ht : 32 ∉ t) :
    deserialize P [t ++ 32 :: d] = deserialize P [t, d] := by
  simp only [deserialize, splitFirstSpace_append t d ht]

/-- Witness for C4 at a concrete topic and payload. -/
theorem deserialize_single_frame_agrees_witness :
    (32 : Byte) ∉ [97] ∧
    deserialize bytesPickle [[97] ++ 32 :: [5, 32, 6]]
      = deserialize bytesPickle [[97], [5, 32, 6]] :=
  ⟨by decide, deserialize_single_frame_agrees bytesPickle [97] [5, 32, 6] (by decide)⟩

/-- C7: a one-frame input with no space byte fails with the malformed-message
error instead of returning a result; a one-frame input containing a space byte
is split at its first space into topic and payload, and the payload is decoded
with no auxiliary buffers. -/
theorem deserialize_one_frame_space {V : Type} (P : Pickle V) (msg : Bytes) :
    (32 ∉ msg → deserialize P [msg] = .error .malformed) ∧
    (32 ∈ msg → ∃ t d, msg = t ++ 32 :: d ∧ 32 ∉ t ∧
      deserialize P [msg] =
        (match P.loads d [] with
         | none => .error .decodeError
         | some v => .ok (t, v))) := by
  constructor
  · intro hno
    simp [deserialize, (splitFirstSpace_eq_none_iff msg).mpr hno]
  · intro hmem
    cases hsp : splitFirstSpace msg with
    | none =>
      exact absurd hmem (by
        exact (splitFirstSpace_eq_none_iff msg).mp hsp)
    | some td =>
      obtain ⟨t, d⟩ := td
      obtain ⟨hmsg, hnot⟩ := splitFirstSpace_sound msg t d hsp
      refine ⟨t, d, hmsg, hnot, ?_⟩
      simp [deserialize, hsp]

/-- Witness for C7: the no-space branch at `b"nospace"`-like input and the
space branch at a concrete spaced input. -/
theorem deserialize_one_frame_space_witness :
    ((32 : Byte) ∉ ([110, 111] : Bytes) ∧
      deserialize bytesPickle [[110, 111]] = .error .malformed) ∧
    ((32 : Byte) ∈ ([97, 32, 7] : Bytes) ∧ ∃ t d,
      ([97, 32, 7] : Bytes) = t ++ 32 :: d ∧ 32 ∉ t ∧
      deserialize bytesPickle [[97, 32, 7]] =
        (match bytesPickle.loads d [] with
         | none => .error .decodeError
         | some v => .ok (t, v))) :=
  ⟨⟨by decide, (deserialize_one_frame_space bytesPickle [110, 111]).1 (by decide)⟩,
   ⟨by decide, (deserialize_one_frame_space bytesPickle [97, 32, 7]).2 (by decide)⟩⟩

/-!
Subscriber model (`subscriber.py`).

A Python `dict` is modelled as an insertion-ordered association list without
duplicate keys: `dictGet` is `d[k]` / `k in d`, `dictSet` is `d[k] = v`
(replacing an existing binding in place, else appending).  The subscriber's
`_topic_sockets` maps keys of type `Option Bytes` (`none` is the Python `None`
global sentinel, `some t` a named topic) to sockets; `_cache` maps the same
keys to cached results.  A ZMQ socket is modelled by its configuration
(subscription filters, the `ZMQ_CONFLATE` option, connected endpoints) plus
its queue of pending inbound multipart messages, oldest first:
`recv_multipart()` pops the head, `recv_multipart(zmq.NOBLOCK)` pops the head
or raises `zmq.Again` when the queue is empty.  A blocking receive on an
empty queue is modelled by the `blocked` outcome (the call waits for data that
the model does not supply).
-/

/-- Association-list lookup, modelling Python `d[k]` and `k in d`. -/
def dictGet {K A : Type} [DecidableEq K] : List (K × A) → K → Option A
  | [], _ => none
  | (k0, a0) :: rest, k => if k = k0 then some a0 else dictGet rest k

/-- Association-list update, modelling Python `d[k] = a`: replaces the
existing binding for `k` in place, else appends a new binding. -/
def dictSet {K A : Type} [DecidableEq K] : List (K × A) → K → A → List (K × A)
  | [], k, a => [(k, a)]
  | (k0, a0) :: rest, k, a =>
    if k = k0 then (k, a) :: rest else (k0, a0) :: dictSet rest k a

/-- A ZMQ SUB socket: configuration recorded by `zmq` calls made on it, plus
its inbound message queue (oldest first).  `_new_socket` performs no
`setsockopt` beyond what the construction code then adds, so `conflate` stays
at the ZMQ default `false` unless explicitly set. -/
structure Socket where
  subFilters : List Bytes
  conflate : Bool
  endpoints : List String
  pending : List (List Bytes)
  deriving DecidableEq, Repr

/-- A value stored in the subscriber's `_cache` dict, and equally the value
returned by `get`: for the global key `None` the code stores and returns the
pair `(topic_str, data_obj)`; for a named topic it stores and returns
`data_obj` alone. -/
inductive Entry (V : Type) where
  | pair (t : Bytes) (v : V)
  | only (v : V)
  deriving DecidableEq, Repr

/-- The mutable state of a `Subscriber` instance: the `buffer` flag
(`keep_old` in the spec), `_topic_sockets` and `_cache`. -/
structure Subscriber (V : Type) where
  buffer : Bool
  topicSockets : List (Option Bytes × Socket)
  cache : List (Option Bytes × Entry V)
  deriving DecidableEq, Repr

/-- Result of one `get` call.  `ok` is a normal return; `keyError` is the
`KeyError` for an unregistered topic; `blocked` marks a blocking
`recv_multipart()` issued on an empty queue (the call waits indefinitely in
this model); `desError` is an exception escaping from `deserialize`. -/
inductive GetOutcome (V : Type) where
  | ok (ret : Entry V)
  | keyError
  | blocked
  | desError (e : DesError)
  deriving DecidableEq, Repr

/-- The value `get` returns, `(topic_str, data_obj) if topic is None else
data_obj`; the cache-update branches store exactly the same shape. -/
def mkRet {V : Type} (topic : Option Bytes) (ts : Bytes) (dv : V) : Entry V :=
  match topic with
  | none => .pair ts dv
  | some _ => .only dv

/-- Replace a socket's pending queue, leaving its configuration unchanged. -/
def Socket.withPending (sock : Socket) (p : List (List Bytes)) : Socket :=
  { sock with pending := p }

/-- Store back into `_topic_sockets` the socket for key `k` with its pending
queue replaced by `p` (the messages `recv_multipart` has not yet consumed). -/
def updPending {V : Type} (s : Subscriber V) (k : Option Bytes) (sock : Socket)
    (p : List (List Bytes)) : Subscriber V :=
  { s with topicSockets := dictSet s.topicSockets k (sock.withPending p) }

/-- The manual drain loop of `get` for `buffer=False`: repeatedly
`recv_one(flags=zmq.NOBLOCK)` until `zmq.Again`, remembering the last
successfully deserialized message.  Returns the loop's result (the last
message, or the deserialization error that escaped) together with the
messages still unconsumed in the queue. -/
def drain {V : Type} (P : Pickle V) :
    List (List Bytes) → Option (Bytes × V) →
    Except DesError (Option (Bytes × V)) × List (List Bytes)
  | [], last => (.ok last, [])
  | f :: fs, last =>
    match deserialize P f with
    | .error e => (.error e, fs)
    | .ok m => drain P fs (some m)

/-- `Subscriber.get(topic)`.  Mirrors `subscriber.py` lines 53-111: raise
`KeyError` for an unregistered key; for `buffer=False` drain the queue
non-blockingly, on success cache and return the last drained message, on an
empty drain return the cached entry if present, else fall through to the
blocking receive (which, on the empty queue, blocks); for `buffer=True` do a
single blocking receive and return without touching the cache. -/
def Subscriber.get {V : Type} (P : Pickle V) (s : Subscriber V)
    (topic : Option Bytes) : GetOutcome V × Subscriber V :=
  match dictGet s.topicSockets topic with
  | none => (.keyError, s)
  | some sock =>
    if s.buffer then
      match sock.pending with
      | [] => (.blocked, s)
      | f :: fs =>
        match deserialize P f with
        | .error e => (.desError e, updPending s topic sock fs)
        | .ok (ts, dv) => (.ok (mkRet topic ts dv), updPending s topic sock fs)
    else
      match drain P sock.pending none with
      | (.error e, rem) => (.desError e, updPending s topic sock rem)
      | (.ok (some (ts, dv)), rem) =>
        (.ok (mkRet topic ts dv),
         { s with
           topicSockets := dictSet s.topicSockets topic (sock.withPending rem),
           cache := dictSet s.cache topic (mkRet topic ts dv) })
      | (.ok none, _) =>
        match dictGet s.cache topic with
        | some e => (.ok e, s)
        | none => (.blocked, s)

/- Dict lemmas. -/

theorem dictGet_dictSet {K A : Type} [DecidableEq K]
    (d : List (K × A)) (k k' : K) (a : A) :
    dictGet (dictSet d k a) k' = if k' = k then some a else dictGet d k' := by
  induction d with
  | nil =>
    by_cases h : k' = k <;> simp [dictGet, dictSet, h]
  | cons p rest ih =>
    obtain ⟨k0, a0⟩ := p
    by_cases hk : k = k0
    · subst hk
      by_cases h : k' = k <;> simp [dictGet, dictSet, h]
    · by_cases h : k' = k0
      · subst h
        simp [dictGet, dictSet, if_neg hk, if_neg (fun hh => hk (Eq.symm hh))]
      · simp [dictGet, dictSet, if_neg hk, if_neg h, ih]

/-- Draining a fully decodable nonempty queue yields the decode of the last
message and consumes the whole queue, for any accumulator. -/
theorem drain_append_last {V : Type} (P : Pickle V) (l : List (List Bytes))
    (mlast : List Bytes) (r : Bytes × V)
    (hall : ∀ m ∈ l, ∃ r0, deserialize P m = .ok r0)
    (hlast : deserialize P mlast = .ok r) :
    ∀ last0, drain P (l ++ [mlast]) last0 = (.ok (some r), []) := by
  induction l with
  | nil =>
    intro last0
    simp [drain, hlast]
  | cons m rest ih =>
    intro last0
    obtain ⟨r0, hr0⟩ := hall m (List.mem_cons_self m rest)
    have hrest : ∀ m0 ∈ rest, ∃ r1, deserialize P m0 = .ok r1 :=
      fun m0 hm0 => hall m0 (List.mem_cons_of_mem m hm0)
    simp [drain, hr0, ih hrest]


/-- Association-list lookup success means the binding is in the list. -/
theorem dictGet_mem {K A : Type} [DecidableEq K] (d : List (K × A)) (k : K)
    (a : A) (h : dictGet d k = some a) : (k, a) ∈ d := by
  induction d with
  | nil => cases h
  | cons p rest ih =>
    obtain ⟨k0, a0⟩ := p
    by_cases hk : k = k0
    · subst hk
      simp [dictGet] at h
      subst h
      exact List.mem_cons_self _ _
    · simp only [dictGet, if_neg hk] at h
      exact List.mem_cons_of_mem _ (ih h)

/- Concrete states used by the witnesses and counterexamples.  `topicA` is
the one-byte topic `b"a"`; frames carry `bytesPickle`-decodable payloads. -/

/-- The topic `b"a"` as bytes. -/
def topicA : Bytes := [97]

/-- A dedicated socket for `topicA` with two decodable pending messages,
payloads `[1]` then `[2]` (oldest first). -/
def sockTwo : Socket :=
  { subFilters := [topicA], conflate := false, endpoints := ["tcp://h:5000"],
    pending := [[topicA, [1]], [topicA, [2]]] }

/-- The same socket with an empty queue. -/
def sockEmpty : Socket :=
  { subFilters := [topicA], conflate := false, endpoints := ["tcp://h:5000"],
    pending := [] }

/-- The global (subscribe-all) socket with an empty queue. -/
def sockGlobal : Socket :=
  { subFilters := [[]], conflate := false, endpoints := ["tcp://h:5000"],
    pending := [] }

/-- Unbuffered subscriber for `topicA` with two pending messages. -/
def subTwo : Subscriber Bytes :=
  { buffer := false,
    topicSockets := [(none, sockGlobal), (some topicA, sockTwo)],
    cache := [] }

/-- Unbuffered subscriber for `topicA`, empty queue, cached value `[9]`. -/
def subCached : Subscriber Bytes :=
  { buffer := false,
    topicSockets := [(none, sockGlobal), (some topicA, sockEmpty)],
    cache := [(some topicA, Entry.only [9])] }

/-- Buffered (`buffer=True`) subscriber for `topicA`, two pending messages. -/
def subBuffered : Subscriber Bytes :=
  { buffer := true,
    topicSockets := [(none, sockGlobal), (some topicA, sockTwo)],
    cache := [] }

/-- C1: with `buffer=False`, when the queue for a registered key holds one or
more fully decodable pending messages, a single `get` drains them all without
blocking, returns the most recent one (in the shape `mkRet` gives it), and
stores that same entry as the new cache value for the key. -/
theorem get_drains_and_returns_last {V : Type} (P : Pickle V)
    (s : Subscriber V) (k : Option Bytes) (sock : Socket)
    (initMsgs : List (List Bytes)) (mlast : List Bytes) (ts : Bytes) (dv : V)
    (hb : s.buffer = false)
    (hs : dictGet s.topicSockets k = some sock)
    (hp : sock.pending = initMsgs ++ [mlast])
    (hall : ∀ m ∈ initMsgs, ∃ r0, deserialize P m = .ok r0)
    (hlast : deserialize P mlast = .ok (ts, dv)) :
    Subscriber.get P s k =
      (.ok (mkRet k ts dv),
       { s with
         topicSockets := dictSet s.topicSockets k (sock.withPending []),
         cache := dictSet s.cache k (mkRet k ts dv) }) := by
  unfold Subscriber.get
  simp only [hs, hb, Bool.false_eq_true, if_false, hp,
    drain_append_last P initMsgs mlast (ts, dv) hall hlast none]

/-- Witness for C1: two pending messages on registered topic `b"a"`; the call
returns the second payload `[2]` and caches it. -/
theorem get_drains_and_returns_last_witness :
    subTwo.buffer = false ∧
    dictGet subTwo.topicSockets (some topicA) = some sockTwo ∧
    sockTwo.pending = [[topicA, [1]]] ++ [[topicA, [2]]] ∧
    (∀ m ∈ [[topicA, [1]]], ∃ r0, deserialize bytesPickle m = .ok r0) ∧
    deserialize bytesPickle [topicA, [2]] = .ok (topicA, ([2] : Bytes)) ∧
    Subscriber.get bytesPickle subTwo (some topicA)
      = (.ok (mkRet (some topicA) topicA ([2] : Bytes)),
         { subTwo with
           topicSockets := dictSet subTwo.topicSockets (some topicA)
             (sockTwo.withPending []),
           cache := dictSet subTwo.cache (some topicA)
             (mkRet (some topicA) topicA ([2] : Bytes)) }) :=
  ⟨rfl, by decide, rfl,
   fun m hm => by
     rcases List.mem_singleton.mp hm with rfl
     exact ⟨(topicA, [1]), rfl⟩,
   rfl,
   get_drains_and_returns_last bytesPickle subTwo (some topicA) sockTwo
     [[topicA, [1]]] [topicA, [2]] topicA [2] rfl (by decide) rfl
     (fun m hm => by
       rcases List.mem_singleton.mp hm with rfl
       exact ⟨(topicA, [1]), rfl⟩)
     rfl⟩

/-- C3: with `buffer=False`, when the registered key's queue is empty and a
cache entry exists, `get` returns the cached entry and leaves the whole
subscriber state (cache included) unchanged, never reaching the blocking
receive. -/
theorem get_returns_cached_when_empty {V : Type} (P : Pickle V)
    (s : Subscriber V) (k : Option Bytes) (sock : Socket) (e : Entry V)
    (hb : s.buffer = false)
    (hs : dictGet s.topicSockets k = some sock)
    (hp : sock.pending = [])
    (hc : dictGet s.cache k = some e) :
    Subscriber.get P s k = (.ok e, s) := by
  unfold Subscriber.get
  simp only [hs, hb, Bool.false_eq_true, if_false, hp, drain, hc]

/-- Witness for C3: empty queue and cached `[9]` for topic `b"a"`; the cached
entry comes back and the state is untouched. -/
theorem get_returns_cached_when_empty_witness :
    subCached.buffer = false ∧
    dictGet subCached.topicSockets (some topicA) = some sockEmpty ∧
    sockEmpty.pending = [] ∧
    dictGet subCached.cache (some topicA) = some (Entry.only [9]) ∧
    Subscriber.get bytesPickle subCached (some topicA)
      = (.ok (Entry.only [9]), subCached) :=
  ⟨rfl, by decide, rfl, by decide,
   get_returns_cached_when_empty bytesPickle subCached (some topicA) sockEmpty
     (Entry.only [9]) rfl (by decide) rfl (by decide)⟩

/-- C8: `get` on a key with no socket in `_topic_sockets` raises `KeyError`
and leaves the subscriber state (cache included) untouched; no receive is
attempted. -/
theorem get_unregistered_raises_keyError {V : Type} (P : Pickle V)
    (s : Subscriber V) (k : Option Bytes)
    (hs : dictGet s.topicSockets k = none) :
    Subscriber.get P s k = (.keyError, s) := by
  unfold Subscriber.get
  simp only [hs]

/-- Witness for C8: `get` on the never-registered topic `b"n"`. -/
theorem get_unregistered_raises_keyError_witness :
    dictGet subTwo.topicSockets (some [110]) = none ∧
    Subscriber.get bytesPickle subTwo (some [110]) = (.keyError, subTwo) :=
  ⟨by decide,
   get_unregistered_raises_keyError bytesPickle subTwo (some [110]) (by decide)⟩

/-- C9: with `buffer=True`, `get` on a registered key does one blocking
receive, consuming exactly the head of the queue, and the cache mapping is
identical before and after the call. -/
theorem get_buffered_single_recv_no_cache {V : Type} (P : Pickle V)
    (s : Subscriber V) (k : Option Bytes) (sock : Socket)
    (f : List Bytes) (fs : List (List Bytes)) (ts : Bytes) (dv : V)
    (hb : s.buffer = true)
    (hs : dictGet s.topicSockets k = some sock)
    (hp : sock.pending = f :: fs)
    (hdec : deserialize P f = .ok (ts, dv)) :
    Subscriber.get P s k = (.ok (mkRet k ts dv), updPending s k sock fs) ∧
    (updPending s k sock fs).cache = s.cache := by
  refine ⟨?_, rfl⟩
  unfold Subscriber.get
  simp only [hs, hb, if_true, hp, hdec]

/-- Witness for C9: buffered subscriber with two queued messages; `get`
returns the first payload `[1]`, leaves `[2]` queued and the cache empty. -/
theorem get_buffered_single_recv_no_cache_witness :
    subBuffered.buffer = true ∧
    dictGet subBuffered.topicSockets (some topicA) = some sockTwo ∧
    sockTwo.pending = [topicA, [1]] :: [[topicA, [2]]] ∧
    deserialize bytesPickle [topicA, [1]] = .ok (topicA, ([1] : Bytes)) ∧
    (Subscriber.get bytesPickle subBuffered (some topicA)
       = (.ok (mkRet (some topicA) topicA ([1] : Bytes)),
          updPending subBuffered (some topicA) sockTwo [[topicA, [2]]]) ∧
     (updPending subBuffered (some topicA) sockTwo [[topicA, [2]]]).cache
       = subBuffered.cache) :=
  ⟨rfl, by decide, rfl, rfl,
   get_buffered_single_recv_no_cache bytesPickle subBuffered (some topicA)
     sockTwo [topicA, [1]] [[topicA, [2]]] topicA [1] rfl (by decide) rfl rfl⟩

/-- Does a `get` outcome return a `(topic, value)` pair (as the global
no-topic form does)? -/
def GetOutcome.isPairReturn {V : Type} : GetOutcome V → Bool
  | .ok (.pair _ _) => true
  | _ => false

/-- C5 counterexample: on a subscriber registered for topic `b"a"` with a
pending message, `get(b"a")` evaluates to the bare deserialized value
`Entry.only [2]`, not a `(topic, value)` pair — `get` returns
`(topic_str, data_obj) if topic is None else data_obj`. -/
theorem get_named_topic_bare_value_cex :
    (Subscriber.get bytesPickle subTwo (some topicA)).1
      = GetOutcome.ok (Entry.only [2]) ∧
    ((Subscriber.get bytesPickle subTwo (some topicA)).1).isPairReturn
      = false := by
  constructor <;> decide

/-- Well-shaped cache: entries under the global `None` key are
`(topic, value)` pairs, entries under a named topic are bare values.  This is
exactly the shape `get` itself stores (`mkRet`), and holds for the empty
cache a fresh subscriber starts with. -/
def cacheWF {V : Type} (c : List (Option Bytes × Entry V)) : Prop :=
  ∀ p ∈ c,
    (p.1 = none → ∃ ts v, p.2 = Entry.pair ts v) ∧
    (∀ t : Bytes, p.1 = some t → ∃ v, p.2 = Entry.only v)

/-- Every successful `get` returns either the freshly received message in
`mkRet` shape or an entry already in the cache at the same key. -/
theorem get_ok_shape_aux {V : Type} (P : Pickle V) (s : Subscriber V)
    (k : Option Bytes) (e : Entry V) (s2 : Subscriber V)
    (h : Subscriber.get P s k = (.ok e, s2)) :
    (∃ ts dv, e = mkRet k ts dv) ∨ dictGet s.cache k = some e := by
  unfold Subscriber.get at h
  split at h
  · simp at h
  · split at h
    · split at h
      · simp at h
      · split at h
        · simp at h
        · rw [Prod.mk.injEq] at h
          obtain ⟨h1, _⟩ := h
          injection h1 with h2
          exact Or.inl ⟨_, _, h2.symm⟩
    · split at h
      · simp at h
      · rw [Prod.mk.injEq] at h
        obtain ⟨h1, _⟩ := h
        injection h1 with h2
        exact Or.inl ⟨_, _, h2.symm⟩
      · split at h
        · rename_i e0 hc
          rw [Prod.mk.injEq] at h
          obtain ⟨h1, _⟩ := h
          injection h1 with h2
          rw [← h2]
          exact Or.inr hc
        · simp at h

/-- C5 amended: over any well-shaped cache, a successful `get` on the global
`None` key returns a `(topic, value)` pair while a successful `get` on a
named topic returns the bare deserialized value (not a pair). -/
theorem get_return_shape {V : Type} (P : Pickle V) (s : Subscriber V)
    (k : Option Bytes) (e : Entry V) (s2 : Subscriber V)
    (hwf : cacheWF s.cache)
    (h : Subscriber.get P s k = (.ok e, s2)) :
    (k = none → ∃ ts v, e = Entry.pair ts v) ∧
    (∀ t : Bytes, k = some t → ∃ v, e = Entry.only v) := by
  rcases get_ok_shape_aux P s k e s2 h with ⟨ts, dv, rfl⟩ | hc
  · constructor
    · rintro rfl
      exact ⟨ts, dv, rfl⟩
    · rintro t rfl
      exact ⟨dv, rfl⟩
  · have hmem := dictGet_mem _ _ _ hc
    have hshape := hwf (k, e) hmem
    constructor
    · rintro rfl
      exact hshape.1 rfl
    · rintro t rfl
      exact hshape.2 t rfl

/-- The state `subTwo` reaches after the `get` of the C1/C5 scenario. -/
def subTwoPost : Subscriber Bytes :=
  { buffer := false,
    topicSockets := [(none, sockGlobal), (some topicA, sockTwo.withPending [])],
    cache := [(some topicA, Entry.only [2])] }

/-- Witness for the amended C5 at the concrete `subTwo` scenario. -/
theorem get_return_shape_witness :
    cacheWF (V := Bytes) subTwo.cache ∧
    Subscriber.get bytesPickle subTwo (some topicA)
      = (.ok (Entry.only [2]), subTwoPost) ∧
    ((some topicA = none → ∃ ts v, (Entry.only ([2] : Bytes)) = Entry.pair ts v) ∧
     (∀ t : Bytes, some topicA = some t →
        ∃ v, (Entry.only ([2] : Bytes)) = Entry.only v)) :=
  ⟨fun p hp => absurd hp (List.not_mem_nil p),
   by decide,
   get_return_shape bytesPickle subTwo (some topicA) (Entry.only [2]) subTwoPost
     (fun p hp => absurd hp (List.not_mem_nil p)) (by decide)⟩

/-!
Construction model (`Subscriber.__init__`).  The `topics` argument is
dynamically typed in Python: it can itself be a string, or an iterable whose
elements may or may not be strings; `PyObj`/`TopicsArg` model exactly that.
`__init__` type-checks `topics` before any socket is created, then opens the
global socket, then one dedicated socket per listed topic (in list order;
later duplicates overwrite earlier dict entries, as Python dict assignment
does).  The `warnings.warn` diagnostic for empty topics with `buffer=False`
carries no state and is not modelled.
-/

/-- An element of the `topics` iterable as a dynamically typed Python value:
a string (modelled as its UTF-8 bytes) or a value of any non-string type. -/
inductive PyObj where
  | str (s : Bytes)
  | nonstr
  deriving DecidableEq, Repr

/-- The `topics` argument itself: a single string, or an iterable. -/
inductive TopicsArg where
  | str (s : Bytes)
  | iter (xs : List PyObj)
  deriving DecidableEq, Repr

/-- The string contents of a `PyObj`, `none` for a non-string. -/
def PyObj.asStr : PyObj → Option Bytes
  | .str s => some s
  | .nonstr => none

/-- The `isinstance` scan over `list(topics)`: the topics as strings when all
elements are strings, `none` (Python: `TypeError`) when any is not. -/
def allStrs : List PyObj → Option (List Bytes)
  | [] => some []
  | x :: rest =>
    match x.asStr with
    | none => none
    | some s =>
      match allStrs rest with
      | none => none
      | some ts => some (s :: ts)

/-- Errors `Subscriber.__init__` raises: `typeError` when `topics` is a
single string or holds a non-string; `invalidTopic` is the `ValueError` from
`_validate_topic` for a topic containing a space. -/
inductive InitErr where
  | typeError
  | invalidTopic
  deriving DecidableEq, Repr

/-- Result of construction: the initial subscriber state, or the error raised
together with the sockets that had already been opened at that point. -/
inductive InitResult (V : Type) where
  | ok (s : Subscriber V)
  | err (e : InitErr) (socketsOpened : List Socket)
  deriving DecidableEq, Repr

/-- The endpoint string `f"tcp://{host}:{port}"`. -/
def endpointOf (host : String) (port : Nat) : String :=
  "tcp://" ++ host ++ ":" ++ toString port

/-- `_create_topic_socket` after validation: `_new_socket` leaves every
option at its ZMQ default (in particular `conflate = false`), then the socket
subscribes to the topic and connects. -/
def createTopicSocket (endpoint : String) (t : Bytes) : Socket :=
  { subFilters := [t], conflate := false, endpoints := [endpoint], pending := [] }

/-- The global socket: `_new_socket`, subscribe to the empty prefix (all
topics), connect. -/
def createGlobalSocket (endpoint : String) : Socket :=
  { subFilters := [[]], conflate := false, endpoints := [endpoint], pending := [] }

/-- The `for topic in topics` loop of `__init__`: each topic is validated
(`ValueError` if it contains a space, reporting the sockets opened so far),
then gets a dedicated socket stored under its key. -/
def initTopicsLoop {V : Type} (endpoint : String) (buffer : Bool) :
    List Bytes → List (Option Bytes × Socket) → List Socket → InitResult V
  | [], dict, _ => .ok { buffer := buffer, topicSockets := dict, cache := [] }
  | t :: rest, dict, opened =>
    if 32 ∈ t then .err .invalidTopic opened
    else
      initTopicsLoop endpoint buffer rest
        (dictSet dict (some t) (createTopicSocket endpoint t))
        (opened ++ [createTopicSocket endpoint t])

/-- `Subscriber.__init__(host, port, topics, buffer)` (see section doc). -/
def subscriberInit (V : Type) (host : String) (port : Nat)
    (topics : TopicsArg) (buffer : Bool) : InitResult V :=
  match topics with
  | .str _ => .err .typeError []
  | .iter xs =>
    match allStrs xs with
    | none => .err .typeError []
    | some ts =>
      initTopicsLoop (endpointOf host port) buffer ts
        [(none, createGlobalSocket (endpointOf host port))]
        [createGlobalSocket (endpointOf host port)]

/-- A list holding a non-string fails the all-strings scan. -/
theorem allStrs_none (xs : List PyObj) (h : PyObj.nonstr ∈ xs) :
    allStrs xs = none := by
  induction xs with
  | nil => cases h
  | cons x rest ih =>
    rcases List.mem_cons.mp h with rfl | hmem
    · rfl
    · cases x with
      | str s => simp only [allStrs, PyObj.asStr, ih hmem]
      | nonstr => rfl

/-- C10: a `topics` argument that is itself a single string, and a `topics`
iterable holding any non-string element, both raise `TypeError` with zero
sockets opened; a string is never treated as an iterable of topics. -/
theorem init_topics_type_error (V : Type) (host : String) (port : Nat)
    (buffer : Bool) :
    (∀ s : Bytes, subscriberInit V host port (.str s) buffer
        = .err .typeError []) ∧
    (∀ xs : List PyObj, PyObj.nonstr ∈ xs →
        subscriberInit V host port (.iter xs) buffer = .err .typeError []) := by
  constructor
  · intro s
    rfl
  · intro xs hmem
    simp only [subscriberInit, allStrs_none xs hmem]

/-- Witness for C10: the single string `b"a"` and the iterable
`["a", <non-string>]` are both rejected with no sockets opened. -/
theorem init_topics_type_error_witness :
    PyObj.nonstr ∈ [PyObj.str topicA, PyObj.nonstr] ∧
    subscriberInit Bytes "h" 5000 (.str topicA) false = .err .typeError [] ∧
    subscriberInit Bytes "h" 5000 (.iter [PyObj.str topicA, PyObj.nonstr]) false
      = .err .typeError [] :=
  ⟨by decide,
   (init_topics_type_error Bytes "h" 5000 false).1 topicA,
   (init_topics_type_error Bytes "h" 5000 false).2
     [PyObj.str topicA, PyObj.nonstr] (by decide)⟩

/-- The state built by `subscriberInit Bytes "h" 5000 (.iter [.str topicA])
false`: global socket plus one dedicated socket, conflation unset on both. -/
def subInitA : Subscriber Bytes :=
  { buffer := false,
    topicSockets :=
      [(none, createGlobalSocket "tcp://h:5000"),
       (some topicA, createTopicSocket "tcp://h:5000" topicA)],
    cache := [] }

/-- C6 counterexample: a subscriber constructed with `keep_old=false`
(`buffer=False`) gets sockets whose transport conflation option is unset
(`conflate = false` on the global and the per-topic socket): `_new_socket`
never sets `ZMQ_CONFLATE`, contradicting the claim that every socket is
configured with the keep-only-newest option. -/
theorem init_conflate_unset_cex :
    subscriberInit Bytes "h" 5000 (.iter [.str topicA]) false = .ok subInitA ∧
    (dictGet subInitA.topicSockets none).map Socket.conflate = some false ∧
    (dictGet subInitA.topicSockets (some topicA)).map Socket.conflate
      = some false := by
  refine ⟨?_, ?_, ?_⟩ <;> decide

/-- The loop preserves "every registered socket has conflation unset". -/
theorem initTopicsLoop_conflate {V : Type} (endpoint : String) (buffer : Bool)
    (ts : List Bytes) :
    ∀ (dict : List (Option Bytes × Socket)) (opened : List Socket)
      (s : Subscriber V),
      (∀ k sock, dictGet dict k = some sock → sock.conflate = false) →
      initTopicsLoop endpoint buffer ts dict opened = .ok s →
      ∀ k sock, dictGet s.topicSockets k = some sock →
        sock.conflate = false := by
  induction ts with
  | nil =>
    intro dict opened s hdict h k sock hk
    unfold initTopicsLoop at h
    injection h with h1
    rw [← h1] at hk
    exact hdict k sock hk
  | cons t rest ih =>
    intro dict opened s hdict h k sock hk
    unfold initTopicsLoop at h
    by_cases hsp : (32 : Byte) ∈ t
    · rw [if_pos hsp] at h
      cases h
    · rw [if_neg hsp] at h
      refine ih _ _ s ?_ h k sock hk
      intro k0 sock0 hk0
      rw [dictGet_dictSet] at hk0
      by_cases hek : k0 = some t
      · rw [if_pos hek] at hk0
        injection hk0 with h2
        rw [← h2]
        rfl
      · rw [if_neg hek] at hk0
        exact hdict k0 sock0 hk0

/-- C6 amended: no socket opened by construction has the transport-level
conflation option set, whatever the `buffer` flag; with `buffer=False` the
keep-only-newest behaviour is instead emulated by the manual drain-and-cache
in `get` (the C1 theorem). -/
theorem init_sockets_conflate_unset (V : Type) (host : String) (port : Nat)
    (topics : TopicsArg) (buffer : Bool) (s : Subscriber V)
    (h : subscriberInit V host port topics buffer = .ok s) :
    ∀ k sock, dictGet s.topicSockets k = some sock → sock.conflate = false := by
  unfold subscriberInit at h
  split at h
  · cases h
  · split at h
    · cases h
    · rename_i xs ts hm
      refine initTopicsLoop_conflate _ _ ts _ _ s ?_ h
      intro k sock hk
      cases k with
      | none =>
        simp only [dictGet, if_pos rfl] at hk
        injection hk with h2
        rw [← h2]
        rfl
      | some t =>
        simp only [dictGet, reduceCtorEq, if_false] at hk

/-- Witness for the amended C6 at the concrete construction of `subInitA`. -/
theorem init_sockets_conflate_unset_witness :
    subscriberInit Bytes "h" 5000 (.iter [.str topicA]) false = .ok subInitA ∧
    dictGet subInitA.topicSockets none = some (createGlobalSocket "tcp://h:5000") ∧
    (createGlobalSocket "tcp://h:5000").conflate = false :=
  ⟨by decide, by decide,
   init_sockets_conflate_unset Bytes "h" 5000 (.iter [.str topicA]) false
     subInitA (by decide) none (createGlobalSocket "tcp://h:5000") (by decide)⟩
